import Mathlib

/-!
Verification of `run_checks.py` (eclipse-opensovd/cicd-workflows).

The script downloads shared CI configuration artifacts, patches them with
run-specific values, runs `pre-commit` as a subprocess, and cleans up the
artifacts it created.  This file gives a shallow embedding of the script:
text is `List Char`, the file system is an association list of files plus a
list of directories, the network and the subprocess are oracles supplied in
an environment record, and `main`'s body after argument parsing is the
function `mainRun`.
-/

/-! ### Text replacement (Python `str.replace`)

Python's `str.replace(old, new)` replaces every occurrence of `old`,
scanning left to right, non-overlapping.  `replaceAll` embeds this for a
non-empty pattern (the only patterns the script uses are non-empty string
literals; for an empty pattern the embedding returns the string unchanged).
-/

def replaceAllGo (pat rep : List Char) : Nat → List Char → List Char
  | _, [] => []
  | 0, _ :: _ => []
  | fuel + 1, c :: s =>
    if pat ≠ [] ∧ pat.isPrefixOf (c :: s) then
      rep ++ replaceAllGo pat rep fuel (List.drop (pat.length - 1) s)
    else
      c :: replaceAllGo pat rep fuel s

/-- Python `str.replace` for a non-empty pattern: the fuel (an upper bound
on the number of scan steps, initially the length of the subject) makes the
recursion structural; it never runs out because each step consumes at least
one character. -/
def replaceAll (pat rep s : List Char) : List Char :=
  replaceAllGo pat rep s.length s

/-- A contiguous-occurrence check: `containsSeq pat s = true` iff `pat`
occurs as a contiguous subsequence (an infix) of `s`. -/
def containsSeq (pat : List Char) : List Char → Bool
  | [] => pat.isEmpty
  | c :: s => pat.isPrefixOf (c :: s) || containsSeq pat s

/-- Boundary check: no non-empty suffix of `r` is a prefix of `q`. -/
def noSufStarts (r q : List Char) : Bool :=
  r.tails.all fun t => t.isEmpty || !(t.isPrefixOf q)

/-- Boundary check: no non-empty prefix of `r` is a suffix of `q`. -/
def noPreEnds (r q : List Char) : Bool :=
  r.inits.all fun t => t.isEmpty || !(t.reverse.isPrefixOf q.reverse)

/-- Joining a list of pieces with a separator; `joinWith sep ps` is the
text obtained by interleaving `sep` between consecutive elements of `ps`. -/
def joinWith (sep : List Char) : List (List Char) → List Char
  | [] => []
  | [u] => u
  | u :: v :: us => u ++ sep ++ joinWith sep (v :: us)

/-! ### The patch functions of run_checks.py -/

/-- The ruff-check argument marker rewritten by `patch_config`. -/
def RUFF_CHECK_OLD : List Char := "args: [--output-format=full]".data

/-- The fix-mode replacement for the ruff-check argument marker. -/
def RUFF_CHECK_NEW : List Char := "args: [--fix, --output-format=full]".data

/-- The ruff-format argument marker rewritten by `patch_config`. -/
def RUFF_FORMAT_OLD : List Char := "args: [--diff]".data

/-- The fix-mode replacement for the ruff-format argument marker. -/
def RUFF_FORMAT_NEW : List Char := "args: []".data

/-- `patch_config` (lines 39-57): in fix mode, add `--fix` to the ruff-check
arguments and drop `--diff` from the ruff-format arguments; in check-only
mode return the content unmodified. -/
def patch_config (config_content : List Char) (fix_mode : Bool) : List Char :=
  if fix_mode then
    replaceAll RUFF_FORMAT_OLD RUFF_FORMAT_NEW
      (replaceAll RUFF_CHECK_OLD RUFF_CHECK_NEW config_content)
  else
    config_content

/-- The copyright placeholder-default token of the hook script. -/
def TOK_COPYRIGHT : List Char :=
  "$\x7bREUSE_COPYRIGHT:-The Contributors to Eclipse OpenSOVD (see CONTRIBUTORS)\x7d".data

/-- The license placeholder-default token of the hook script. -/
def TOK_LICENSE : List Char := "$\x7bREUSE_LICENSE:-Apache-2.0\x7d".data

/-- The reuse-template placeholder-default token of the hook script. -/
def TOK_TEMPLATE : List Char := "$\x7bREUSE_TEMPLATE:-opensovd\x7d".data

/-- `patch_hook_script` (lines 60-78): three sequential replacements, first
the copyright token, then the license token, then the template token. -/
def patch_hook_script (script_content : List Char)
    (copyright_text license_id templ : List Char) : List Char :=
  replaceAll TOK_TEMPLATE templ
    (replaceAll TOK_LICENSE license_id
      (replaceAll TOK_COPYRIGHT copyright_text script_content))

/-- Specification reading of claim C6: a single simultaneous left-to-right
pass over the script that replaces each occurrence of each of the three
placeholder-default tokens with its resolved value and copies every other
character unchanged. -/
def patchHookScriptSpecGo (copyright_text license_id templ : List Char) :
    Nat → List Char → List Char
  | _, [] => []
  | 0, _ :: _ => []
  | fuel + 1, c :: s =>
    if TOK_COPYRIGHT.isPrefixOf (c :: s) then
      copyright_text ++
        patchHookScriptSpecGo copyright_text license_id templ fuel
          (List.drop (TOK_COPYRIGHT.length - 1) s)
    else if TOK_LICENSE.isPrefixOf (c :: s) then
      license_id ++
        patchHookScriptSpecGo copyright_text license_id templ fuel
          (List.drop (TOK_LICENSE.length - 1) s)
    else if TOK_TEMPLATE.isPrefixOf (c :: s) then
      templ ++
        patchHookScriptSpecGo copyright_text license_id templ fuel
          (List.drop (TOK_TEMPLATE.length - 1) s)
    else
      c :: patchHookScriptSpecGo copyright_text license_id templ fuel s

/-- Simultaneous single-pass reading of claim C6 (see the doc comment
above), with structural fuel initialised to the subject length. -/
def patchHookScriptSpec (copyright_text license_id templ s : List Char) :
    List Char :=
  patchHookScriptSpecGo copyright_text license_id templ s.length s

/-! ### File-system model

Paths are lists of components relative to the working directory (the paths
the runner touches are all relative; `Path(".")` is the empty list).  A file
system is an association list of files together with a list of directories.
-/

/-- Look up the content of the file at path `p` in an association list. -/
def lookupFile (p : List String) : List (List String × List Char) → Option (List Char)
  | [] => none
  | e :: rest => if e.1 = p then some e.2 else lookupFile p rest

/-- Remove every entry for path `p` from an association list of files. -/
def removeFileEntry (p : List String) :
    List (List String × List Char) → List (List String × List Char)
  | [] => []
  | e :: rest =>
    if e.1 = p then removeFileEntry p rest else e :: removeFileEntry p rest

/-- File-system state: files (path to content) and directories. -/
structure FS where
  files : List (List String × List Char)
  dirs : List (List String)
deriving DecidableEq

/-- Whether a regular file exists at `p`. -/
def FS.fileAt (fs : FS) (p : List String) : Bool := (lookupFile p fs.files).isSome

/-- Whether a directory exists at `p`. -/
def FS.dirAt (fs : FS) (p : List String) : Bool := fs.dirs.contains p

/-- `Path.exists()`: a file or a directory exists at `p`. -/
def FS.pathExists (fs : FS) (p : List String) : Bool := fs.fileAt p || fs.dirAt p

/-- `Path.write_text`: create or truncate the file at `p`. -/
def FS.writeText (fs : FS) (p : List String) (content : List Char) : FS :=
  { fs with files := (p, content) :: removeFileEntry p fs.files }

/-- `Path.read_text`: `none` models the read raising an exception. -/
def FS.readText (fs : FS) (p : List String) : Option (List Char) :=
  lookupFile p fs.files

/-- Add a single directory (no effect if already present). -/
def FS.addDir (fs : FS) (p : List String) : FS :=
  if fs.dirs.contains p then fs else { fs with dirs := p :: fs.dirs }

/-- Create every directory `done ++ [a1]`, `done ++ [a1, a2]`, ... along a
component list, shallowest first. -/
def FS.mkdirAlong (fs : FS) (done : List String) : List String → FS
  | [] => fs
  | a :: rest => ((fs.addDir (done ++ [a])).mkdirAlong (done ++ [a])) rest

/-- `Path.mkdir(parents=True, exist_ok=True)`: create `p` and all of its
ancestors as directories, shallowest first. -/
def FS.mkdirParents (fs : FS) (p : List String) : FS :=
  fs.mkdirAlong [] p

/-- `Path.unlink(missing_ok=...)`: `error` models the raised exception. -/
def FS.unlink (fs : FS) (p : List String) (missing_ok : Bool) : Except Unit FS :=
  if (lookupFile p fs.files).isSome then
    .ok { fs with files := removeFileEntry p fs.files }
  else if missing_ok then .ok fs else .error ()

/-- Whether directory `d` has any file or directory strictly inside it (a
file entry whose path extends `d`, or a different directory extending `d`). -/
def FS.dirNonempty (fs : FS) (d : List String) : Bool :=
  fs.files.any (fun e => d.isPrefixOf e.1) ||
    fs.dirs.any (fun q => d.isPrefixOf q && q != d)

/-- `Path.rmdir()`: fails (raises `OSError`) unless `d` is an existing empty
directory. -/
def FS.rmdir (fs : FS) (d : List String) : Except Unit FS :=
  if fs.dirs.contains d && !fs.dirNonempty d then
    .ok { fs with dirs := fs.dirs.erase d }
  else .error ()

/-- `rmdir` wrapped in `try ... except OSError: pass` (lines 123-126). -/
def rmdirQuiet (fs : FS) (d : List String) : FS :=
  match fs.rmdir d with
  | .ok fs1 => fs1
  | .error _ => fs

/-- `unlink(missing_ok=True)` where the caller ignores the (impossible)
failure. -/
def unlinkQuiet (fs : FS) (p : List String) : FS :=
  match fs.unlink p true with
  | .ok fs1 => fs1
  | .error _ => fs

/-! ### Cleanup records and cleanup_downloads -/

/-- A cleanup record: the downloaded file plus the directories created to
hold it, stored shallowest-first (the `sorted` order of the source). -/
structure CleanupInfo where
  file : List String
  dirs : List (List String)
deriving DecidableEq

/-- One iteration of the cleanup loop (lines 117-126): skip `None` entries,
unlink the recorded file with `missing_ok=True`, then remove the recorded
directories deepest-first, ignoring `OSError`. -/
def cleanupOne (fs : FS) (info : Option CleanupInfo) : Except Unit FS :=
  match info with
  | none => .ok fs
  | some i =>
    match fs.unlink i.file true with
    | .ok fs1 => .ok (i.dirs.reverse.foldl rmdirQuiet fs1)
    | .error e => .error e

/-- `cleanup_downloads` (lines 115-126): iterate `cleanupOne` over the
cleanup list, propagating any raised exception. -/
def cleanup_downloads : List (Option CleanupInfo) → FS → Except Unit FS
  | [], fs => .ok fs
  | info :: rest, fs =>
    match cleanupOne fs info with
    | .ok fs1 => cleanup_downloads rest fs1
    | .error e => .error e

/-! ### The directory-recording loop and download_if_missing -/

/-- A `pathlib` path: an absolute flag plus components.  `Path(".")` is
`⟨false, []⟩`; both `Path(".").parent` and `Path("/").parent` are
themselves. -/
structure PyPath where
  absolute : Bool
  parts : List String
deriving DecidableEq

/-- `Path.parent`. -/
def PyPath.parent (p : PyPath) : PyPath := { p with parts := p.parts.dropLast }

/-- `Path(".")`. -/
def dotPath : PyPath := ⟨false, []⟩

/-- The while-loop of `download_if_missing` (lines 93-98) on general paths,
with explicit fuel so that possible non-termination is observable: `none`
means the fuel ran out before `check` reached `Path(".")`.  `ex` is the
file-system existence oracle. -/
def collectDirsLoop (ex : PyPath → Bool) :
    Nat → PyPath → List PyPath → Option (List PyPath)
  | 0, _, _ => none
  | fuel + 1, check, acc =>
    if check = dotPath then some acc
    else collectDirsLoop ex fuel check.parent (if ex check then acc else acc ++ [check])

/-- Record, deepest first, each path among `done ++ [a1]`,
`done ++ [a1, a2]`, ... that does not exist. -/
def missingAncestorsFrom (fs : FS) (done : List String) :
    List String → List (List String)
  | [] => []
  | a :: rest =>
    missingAncestorsFrom fs (done ++ [a]) rest ++
      (if fs.pathExists (done ++ [a]) then [] else [done ++ [a]])

/-- The while-loop of `download_if_missing` specialised to a relative path
`check`: walking from `check` up through its parents until the empty path
and recording each missing path, deepest first, visits exactly the
non-empty initial segments of `check`, deepest first. -/
def missingAncestors (fs : FS) (check : List String) : List (List String) :=
  missingAncestorsFrom fs [] check

/-- The warning printed to stderr by `download_if_missing` on `HTTPError`. -/
def warnMsg (desc url : String) : String :=
  "Warning: Could not download " ++ desc ++ " from " ++ url

/-- `download_if_missing` (lines 81-112).  The network GET is modelled by
`response`: `some content` for a successful fetch, `none` for an
`HTTPError`.  Returns the cleanup record (or `none` when skipped or when
the fetch failed), the updated file system, and the stderr lines emitted.
The recorded directory list is `sorted(created_dirs)`; on the ancestor
chain collected deepest-first this is the reversed collection order. -/
def download_if_missing (local_path : List String) (url desc : String)
    (response : Option (List Char)) (fs : FS) :
    Option CleanupInfo × FS × List String :=
  if fs.pathExists local_path then (none, fs, [])
  else
    match response with
    | none => (none, fs.mkdirParents local_path.dropLast, [warnMsg desc url])
    | some content =>
      (some ⟨local_path, (missingAncestors fs local_path.dropLast).reverse⟩,
        (fs.mkdirParents local_path.dropLast).writeText local_path content, [])

/-! ### Argument resolution (lines 129-183) -/

/-- Default branch. -/
def DEFAULT_BRANCH : String := "main"

/-- Default copyright holder text. -/
def DEFAULT_COPYRIGHT : String := "The Contributors to Eclipse OpenSOVD (see CONTRIBUTORS)"

/-- Default SPDX license identifier. -/
def DEFAULT_LICENSE : String := "Apache-2.0"

/-- Default reuse template name. -/
def DEFAULT_TEMPLATE : String := "opensovd"

/-- Parsed command-line arguments; `none` models an argument that was not
supplied (for the two path overrides, also the empty string, which is falsy
in the source's `if args.hook_script:` test).  Path-valued arguments are
component lists. -/
structure Args where
  branch : Option String
  copyright : Option String
  license : Option String
  template : Option String
  config : Option (List String)
  hook_script : Option (List String)
  no_fix : Bool

/-- The resolved run configuration. -/
structure RunConfig where
  branch : String
  copyright : String
  license : String
  templateName : String
deriving DecidableEq

/-- Argument resolution: argparse defaults (lines 133-153) followed by the
empty-string normalisation of copyright, license and template
(lines 172-178).  The positional `branch` is not normalised. -/
def resolve_config (branch copyright license templ : Option String) : RunConfig :=
  let b := branch.getD DEFAULT_BRANCH
  let c0 := copyright.getD DEFAULT_COPYRIGHT
  let l0 := license.getD DEFAULT_LICENSE
  let t0 := templ.getD DEFAULT_TEMPLATE
  { branch := b
    copyright := if c0 = "" then DEFAULT_COPYRIGHT else c0
    license := if l0 = "" then DEFAULT_LICENSE else l0
    templateName := if t0 = "" then DEFAULT_TEMPLATE else t0 }

/-! ### URLs and messages -/

/-- A single-quote character, for building the source's messages. -/
def squo : String := String.singleton (Char.ofNat 39)

/-- Base raw-content URL for a branch. -/
def REPO_BASE_URL (branch : String) : String :=
  "https://raw.githubusercontent.com/eclipse-opensovd/cicd-workflows/" ++ branch

/-- URL of the pre-commit config for a branch. -/
def CONFIG_URL (branch : String) : String :=
  REPO_BASE_URL branch ++ "/pre-commit-action/.pre-commit-config.yml"

/-- URL of the hook script for a branch. -/
def HOOK_SCRIPT_URL (branch : String) : String :=
  REPO_BASE_URL branch ++ "/pre-commit-action/reuse-annotate-hook.sh"

/-- URL of the reuse template for a branch. -/
def TEMPLATE_URL (branch templ : String) : String :=
  REPO_BASE_URL branch ++ "/.reuse/templates/" ++ templ ++ ".jinja2"

/-- URL of the license text for a branch. -/
def LICENSE_URL (branch license : String) : String :=
  REPO_BASE_URL branch ++ "/LICENSES/" ++ license ++ ".txt"

/-- Description string for the template download. -/
def descTemplate (t : String) : String := "reuse template " ++ squo ++ t ++ squo

/-- Description string for the license download. -/
def descLicense (l : String) : String := "license text " ++ squo ++ l ++ squo

/-- Stderr line of the `HTTPError` handler (line 277; the exception repr is
abstracted). -/
def errDownloadMsg : String := "Error downloading config"

/-- Stderr line of the `HTTPError` handler naming the branch (line 279). -/
def errBranchMsg (branch : String) : String :=
  "Make sure the branch " ++ squo ++ branch ++ squo ++ " exists in the repository."

/-- Stderr line of the generic exception handler (line 287; the exception
repr is abstracted). -/
def errOtherMsg : String := "Error"

/-! ### The body of main (lines 185-291) -/

/-- The two kinds of exception main distinguishes: `urllib.error.HTTPError`
and everything else. -/
inductive RunError where
  | httpError
  | otherError
deriving DecidableEq

/-- Stderr lines of the two exception handlers. -/
def errMsgs : RunError → String → List String
  | .httpError, branch => [errDownloadMsg, errBranchMsg branch]
  | .otherError, _ => [errOtherMsg]

/-- Oracles for a run: the four network fetches (`none` = `HTTPError`), the
fresh path chosen by `NamedTemporaryFile`, and the downstream tool's exit
code. -/
structure Env where
  configFetch : Option (List Char)
  hookFetch : Option (List Char)
  templateFetch : Option (List Char)
  licenseFetch : Option (List Char)
  tempName : List String
  toolExit : Int
deriving DecidableEq

/-- Config acquisition (lines 189-210).  Without `--config`: the temp file
is created first (empty), then the download runs; on `HTTPError` the temp
file is already on disk but `config_path`/`config_is_temp` are not yet set.
With `--config`: read the local file, patch, and write to a fresh temp
file.  On success the temp path is the config path and `config_is_temp` is
true. -/
def acquireConfig (args : Args) (env : Env) (fix_mode : Bool) (fs : FS) :
    Except (RunError × FS) (List String × FS) :=
  match args.config with
  | none =>
    match env.configFetch with
    | none => .error (.httpError, fs.writeText env.tempName [])
    | some content =>
      .ok (env.tempName,
        (fs.writeText env.tempName []).writeText env.tempName
          (patch_config content fix_mode))
  | some cp =>
    match fs.readText cp with
    | none => .error (.otherError, fs)
    | some content =>
      .ok (env.tempName,
        (fs.writeText env.tempName []).writeText env.tempName
          (patch_config content fix_mode))

/-- The working-directory path of the hook script. -/
def hookPath : List String := ["reuse-annotate-hook.sh"]

/-- Hook-script source selection (lines 218-229): take the script content
from `--hook-script`, else from the working directory when the hook already
exists there, else download it (an `HTTPError` on that download aborts the
run). -/
def hookScriptSource (args : Args) (env : Env) (fs : FS) :
    Except RunError (List Char) :=
  match args.hook_script with
  | some hp =>
    match fs.readText hp with
    | none => .error .otherError
    | some c => .ok c
  | none =>
    if fs.pathExists hookPath then
      match fs.readText hookPath with
      | none => .error .otherError
      | some c => .ok c
    else
      match env.hookFetch with
      | none => .error .httpError
      | some c => .ok c

/-- Hook-script acquisition and materialisation (lines 215-242): resolve
the script content, patch it and write it to `./reuse-annotate-hook.sh`;
record a cleanup entry only when that file did not already exist. -/
def acquireHook (args : Args) (env : Env) (cfg : RunConfig) (fs : FS) :
    Except (RunError × FS) (List (Option CleanupInfo) × FS) :=
  match hookScriptSource args env fs with
  | .error e => .error (e, fs)
  | .ok script_content =>
    .ok (if fs.pathExists hookPath then [] else [some ⟨hookPath, []⟩],
      fs.writeText hookPath (patch_hook_script script_content
        cfg.copyright.data cfg.license.data cfg.templateName.data))

/-- The relative path of the reuse template asset. -/
def templatePath (t : String) : List String := [".reuse", "templates", t ++ ".jinja2"]

/-- The relative path of the license text asset. -/
def licensePath (l : String) : List String := ["LICENSES", l ++ ".txt"]

/-- The two auxiliary `download_if_missing` calls (lines 244-263): returns
the two cleanup entries, the updated file system and the warnings. -/
def auxDownloads (env : Env) (cfg : RunConfig) (fs : FS) :
    List (Option CleanupInfo) × FS × List String :=
  match download_if_missing (templatePath cfg.templateName)
      (TEMPLATE_URL cfg.branch cfg.templateName) (descTemplate cfg.templateName)
      env.templateFetch fs with
  | (ci1, fs1, w1) =>
    match download_if_missing (licensePath cfg.license)
        (LICENSE_URL cfg.branch cfg.license) (descLicense cfg.license)
        env.licenseFetch fs1 with
    | (ci2, fs2, w2) => ([ci1, ci2], fs2, w1 ++ w2)

/-- The common tail of the two exception handlers (lines 282-284 and
288-290): unlink the temp config when `config_is_temp` is set, then run
`cleanup_downloads` (which never fails; its error branch is dead code). -/
def exceptCleanup (config_path : Option (List String))
    (cleanup_list : List (Option CleanupInfo)) (fs : FS) : FS :=
  match config_path with
  | some p =>
    match cleanup_downloads cleanup_list (unlinkQuiet fs p) with
    | .ok fs2 => fs2
    | .error _ => unlinkQuiet fs p
  | none =>
    match cleanup_downloads cleanup_list fs with
    | .ok fs2 => fs2
    | .error _ => fs

/-- Result of one run of main: process exit code, whether the downstream
tool was invoked, the final file system and the stderr lines. -/
structure RunResult where
  exitCode : Int
  invoked : Bool
  fs : FS
  stderr : List String

/-- The success path after both required artifacts are in place
(lines 244-275): auxiliary downloads, the `pre-commit` subprocess, unlink
of the temp config and `cleanup_downloads`, exiting with the tool's code.
The `cleanup_downloads` error branch models the generic exception handler
(it is dead code, since cleanup never fails). -/
def finishRun (env : Env) (cfg : RunConfig) (config_path : List String)
    (cl1 : List (Option CleanupInfo)) (fs : FS) : RunResult :=
  match cleanup_downloads (cl1 ++ (auxDownloads env cfg fs).1)
      (unlinkQuiet (auxDownloads env cfg fs).2.1 config_path) with
  | .ok fs5 =>
    { exitCode := env.toolExit, invoked := true, fs := fs5,
      stderr := (auxDownloads env cfg fs).2.2 }
  | .error _ =>
    { exitCode := 1, invoked := true,
      fs := exceptCleanup (some config_path) (cl1 ++ (auxDownloads env cfg fs).1)
        (unlinkQuiet (auxDownloads env cfg fs).2.1 config_path),
      stderr := (auxDownloads env cfg fs).2.2 ++ errMsgs .otherError cfg.branch }

/-- The body of `main` after argument parsing (lines 170-291). -/
def mainRun (args : Args) (env : Env) (fs0 : FS) : RunResult :=
  match acquireConfig args env (!args.no_fix) fs0 with
  | .error (e, fs1) =>
    { exitCode := 1, invoked := false, fs := exceptCleanup none [] fs1,
      stderr := errMsgs e
        (resolve_config args.branch args.copyright args.license args.template).branch }
  | .ok (config_path, fs1) =>
    match acquireHook args env
        (resolve_config args.branch args.copyright args.license args.template) fs1 with
    | .error (e, fs2) =>
      { exitCode := 1, invoked := false,
        fs := exceptCleanup (some config_path) [] fs2,
        stderr := errMsgs e
          (resolve_config args.branch args.copyright args.license args.template).branch }
    | .ok (cl1, fs2) =>
      finishRun env
        (resolve_config args.branch args.copyright args.license args.template)
        config_path cl1 fs2

/-! ### Concrete run instances (used by witnesses and counterexamples) -/

/-- Arguments with local config and hook script, used by concrete runs. -/
def argsLocal : Args :=
  { branch := none, copyright := none, license := none, template := none,
    config := some ["cfg.yml"], hook_script := some ["hook.sh"], no_fix := false }

/-- A file system holding the two local inputs of `argsLocal`. -/
def fsLocal : FS := ⟨[(["cfg.yml"], []), (["hook.sh"], [])], []⟩

/-- An environment with all fetches failing and a distinctive tool exit. -/
def envNoNet : Env :=
  { configFetch := none, hookFetch := none, templateFetch := none,
    licenseFetch := none, tempName := ["tmpcfg.yml"], toolExit := 5 }

/-- The empty file system. -/
def fsEmpty : FS := ⟨[], []⟩

/-- Concrete first-stage file system of the `argsLocal` run. -/
def fsLocalC1 : FS :=
  ⟨[(["tmpcfg.yml"], []), (["cfg.yml"], []), (["hook.sh"], [])], []⟩

/-- Concrete second-stage file system of the `argsLocal` run. -/
def fsLocalC2 : FS :=
  ⟨[(hookPath, []), (["tmpcfg.yml"], []), (["cfg.yml"], []), (["hook.sh"], [])], []⟩

/-- Arguments with a local config and a hook script already in the working
directory. -/
def argsCex1 : Args :=
  { branch := none, copyright := none, license := none, template := none,
    config := some ["cfg.yml"], hook_script := none, no_fix := false }

/-- A working tree that already holds the local config, an unpatched hook
script (its content is the copyright placeholder token), and both auxiliary
assets. -/
def fsCex1 : FS :=
  ⟨[(["cfg.yml"], []), (hookPath, TOK_COPYRIGHT),
    ([".reuse", "templates", "opensovd.jinja2"], []),
    (["LICENSES", "Apache-2.0.txt"], [])],
   [[".reuse"], [".reuse", "templates"], ["LICENSES"]]⟩

/-- Environment for the `fsCex1` run (no network needed). -/
def envCex1 : Env :=
  { configFetch := none, hookFetch := none, templateFetch := none,
    licenseFetch := none, tempName := ["tmpcfg.yml"], toolExit := 0 }

/-- Arguments of a run on branch `feature-x` with no local overrides. -/
def argsC3 : Args :=
  { branch := some "feature-x", copyright := none, license := none,
    template := none, config := none, hook_script := none, no_fix := false }

/-- Environment in which the remote config fetch returns HTTP 404. -/
def envC3 : Env :=
  { configFetch := none, hookFetch := none, templateFetch := none,
    licenseFetch := none, tempName := ["tmp", "pre-commit-cfg.yml"],
    toolExit := 7 }

/-! ## Theorems -/

/-! ### Prefix, suffix and infix bridges -/

theorem isPrefixOf_eq_iff (a b : List Char) : a.isPrefixOf b = true ↔ a <+: b :=
  List.isPrefixOf_iff_prefix

theorem sfx_iff_reverse (a b : List Char) :
    a.reverse.isPrefixOf b.reverse = true ↔ a <:+ b := by
  rw [isPrefixOf_eq_iff]
  constructor
  · rintro ⟨t, ht⟩
    refine ⟨t.reverse, ?_⟩
    have h2 := congrArg List.reverse ht
    simpa using h2
  · rintro ⟨t, rfl⟩
    exact ⟨t.reverse, by simp⟩

theorem infix_of_pfx {a b : List Char} (h : a <+: b) : a <:+: b := by
  obtain ⟨t, ht⟩ := h
  exact ⟨[], t, by simpa using ht⟩

theorem infix_of_sfx {a b : List Char} (h : a <:+ b) : a <:+: b := by
  obtain ⟨t, ht⟩ := h
  exact ⟨t, [], by simpa using ht⟩

theorem containsSeq_eq_iff (pat : List Char) :
    ∀ s, containsSeq pat s = true ↔ pat <:+: s
  | [] => by
    simp [containsSeq, List.infix_nil, List.isEmpty_iff]
  | c :: s => by
    simp [containsSeq, List.infix_cons_iff, containsSeq_eq_iff pat s,
      isPrefixOf_eq_iff]

theorem noSufStarts_spec {r q : List Char} (h : noSufStarts r q = true) :
    ∀ t, t <:+ r → t ≠ [] → ¬ t <+: q := by
  intro t hsuf hne hpre
  have h2 := List.all_eq_true.mp h t ((List.mem_tails t r).mpr hsuf)
  rw [Bool.or_eq_true, List.isEmpty_iff, Bool.not_eq_true'] at h2
  rcases h2 with h2 | h2
  · exact hne h2
  · rw [(isPrefixOf_eq_iff t q).mpr hpre] at h2
    cases h2

theorem noPreEnds_spec {r q : List Char} (h : noPreEnds r q = true) :
    ∀ t, t <+: r → t ≠ [] → ¬ t <:+ q := by
  intro t hpre hne hsuf
  have h2 := List.all_eq_true.mp h t ((List.mem_inits t r).mpr hpre)
  rw [Bool.or_eq_true, List.isEmpty_iff, Bool.not_eq_true'] at h2
  rcases h2 with h2 | h2
  · exact hne h2
  · rw [(sfx_iff_reverse t q).mpr hsuf] at h2
    cases h2

/-! ### Splitting occurrences across concatenations -/

theorem pfx_append_cases {Y r T : List Char} (h : Y <+: r ++ T) :
    Y <+: r ∨ ∃ Z, Y = r ++ Z ∧ Z <+: T := by
  obtain ⟨z, hz⟩ := h
  rcases List.append_eq_append_iff.mp hz with ⟨x, hx1, hx2⟩ | ⟨x, hx1, hx2⟩
  · exact Or.inl ⟨x, hx1.symm⟩
  · exact Or.inr ⟨x, hx1, ⟨z, hx2.symm⟩⟩

theorem infix_append_cases {q A B : List Char} (h : q <:+: A ++ B) :
    q <:+: A ∨ q <:+: B ∨
      ∃ X Y, q = X ++ Y ∧ X ≠ [] ∧ Y ≠ [] ∧ X <:+ A ∧ Y <+: B := by
  obtain ⟨u, v, huv⟩ := h
  rw [List.append_assoc] at huv
  rcases List.append_eq_append_iff.mp huv with ⟨x, hx1, hx2⟩ | ⟨x, hx1, hx2⟩
  · rcases List.append_eq_append_iff.mp hx2 with ⟨y, hy1, hy2⟩ | ⟨y, hy1, hy2⟩
    · refine Or.inl ⟨u, y, ?_⟩
      rw [hx1, hy1, List.append_assoc]
    · rcases eq_or_ne x [] with rfl | hxne
      · refine Or.inr (Or.inl ?_)
        simp only [List.nil_append] at hy1
        exact infix_of_pfx ⟨v, by rw [hy1]; exact hy2.symm⟩
      · rcases eq_or_ne y [] with rfl | hyne
        · refine Or.inl ?_
          rw [List.append_nil] at hy1
          exact infix_of_sfx ⟨u, by rw [hx1, hy1]⟩
        · exact Or.inr (Or.inr ⟨x, y, hy1, hxne, hyne, ⟨u, hx1.symm⟩, ⟨v, hy2.symm⟩⟩)
  · exact Or.inr (Or.inl ⟨x, v, by rw [hx2, List.append_assoc]⟩)

theorem not_infix_append {q A B : List Char}
    (hA : ¬ q <:+: A) (hB : ¬ q <:+: B)
    (hbd : ∀ X Y, q = X ++ Y → X ≠ [] → Y ≠ [] → ¬ (X <:+ A ∧ Y <+: B)) :
    ¬ q <:+: A ++ B := by
  intro h
  rcases infix_append_cases h with h1 | h2 | ⟨X, Y, hq, hX, hY, hXA, hYB⟩
  · exact hA h1
  · exact hB h2
  · exact hbd X Y hq hX hY ⟨hXA, hYB⟩

/-! ### joinWith facts -/

theorem joinWith_pair (sep u v : List Char) (us : List (List Char)) :
    joinWith sep (u :: v :: us) = u ++ sep ++ joinWith sep (v :: us) := rfl

theorem joinWith_head_cons (sep : List Char) (c : Char) (u : List Char)
    (l : List (List Char)) :
    joinWith sep ((c :: u) :: l) = c :: joinWith sep (u :: l) := by
  cases l with
  | nil => rfl
  | cons v us =>
    rw [joinWith_pair, joinWith_pair]
    simp [List.cons_append]

theorem piece_infix_joinWith (sep : List Char) :
    ∀ ps : List (List Char), ∀ u ∈ ps, u <:+: joinWith sep ps
  | [], u, hu => absurd hu (List.not_mem_nil u)
  | [w], u, hu => by
    simp only [List.mem_singleton] at hu
    subst hu
    exact ⟨[], [], by simp [joinWith]⟩
  | w :: v :: us, u, hu => by
    rcases List.mem_cons.mp hu with rfl | hu2
    · exact ⟨[], sep ++ joinWith sep (v :: us), by
        rw [joinWith_pair]
        simp [List.append_assoc]⟩
    · obtain ⟨a, b, hab⟩ := piece_infix_joinWith sep (v :: us) u hu2
      exact ⟨(w ++ sep) ++ a, b, by
        rw [joinWith_pair]
        simp [← hab, List.append_assoc]⟩

theorem not_infix_joinWith {q r : List Char} (hq : q ≠ [])
    (hqr : ¬ q <:+: r) (hrq : ¬ r <:+: q)
    (hsp : ∀ t, t <:+ r → t ≠ [] → ¬ t <+: q)
    (hps : ∀ t, t <+: r → t ≠ [] → ¬ t <:+ q) :
    ∀ ps : List (List Char), (∀ u ∈ ps, ¬ q <:+: u) → ¬ q <:+: joinWith r ps
  | [], _ => by
    intro h
    exact hq ((List.infix_nil).mp (by simpa [joinWith] using h))
  | [u], hfree => by
    have h1 := hfree u (by simp)
    simpa [joinWith] using h1
  | u :: v :: us, hfree => by
    have ihT : ¬ q <:+: joinWith r (v :: us) :=
      not_infix_joinWith hq hqr hrq hsp hps (v :: us)
        (fun w hw => hfree w (List.mem_cons_of_mem u hw))
    have hrT : ¬ q <:+: r ++ joinWith r (v :: us) := by
      refine not_infix_append hqr ihT ?_
      rintro X Y hXY hX hY ⟨hXr, hYT⟩
      exact hsp X hXr hX ⟨Y, hXY.symm⟩
    have hout : ¬ q <:+: u ++ (r ++ joinWith r (v :: us)) := by
      refine not_infix_append (hfree u (by simp)) hrT ?_
      rintro X Y hXY hX hY ⟨hXu, hYrT⟩
      rcases pfx_append_cases hYrT with hYr | ⟨Z, rfl, hZT⟩
      · exact hps Y hYr hY ⟨X, hXY.symm⟩
      · exact hrq ⟨X, Z, by rw [hXY, List.append_assoc]⟩
    rw [joinWith_pair, List.append_assoc]
    exact hout

/-! ### replaceAll: unfolding, identity, and the pieces decomposition -/

theorem replaceAllGo_fuel (pat rep : List Char) :
    ∀ (fuel1 fuel2 : Nat) (s : List Char), s.length ≤ fuel1 → s.length ≤ fuel2 →
      replaceAllGo pat rep fuel1 s = replaceAllGo pat rep fuel2 s := by
  intro fuel1
  induction fuel1 with
  | zero =>
    intro fuel2 s h1 h2
    have hz : s = [] := List.length_eq_zero.mp (Nat.le_zero.mp h1)
    subst hz
    cases fuel2 <;> rfl
  | succ f ih =>
    intro fuel2 s h1 h2
    cases s with
    | nil => cases fuel2 <;> rfl
    | cons c s0 =>
      cases fuel2 with
      | zero => simp at h2
      | succ g =>
        simp only [List.length_cons] at h1 h2
        show (if pat ≠ [] ∧ pat.isPrefixOf (c :: s0) = true then
            rep ++ replaceAllGo pat rep f (List.drop (pat.length - 1) s0)
          else c :: replaceAllGo pat rep f s0) =
          (if pat ≠ [] ∧ pat.isPrefixOf (c :: s0) = true then
            rep ++ replaceAllGo pat rep g (List.drop (pat.length - 1) s0)
          else c :: replaceAllGo pat rep g s0)
        by_cases hcond : pat ≠ [] ∧ pat.isPrefixOf (c :: s0) = true
        · rw [if_pos hcond, if_pos hcond]
          have hlen : (List.drop (pat.length - 1) s0).length ≤ s0.length := by
            simp [List.length_drop]
          rw [ih g _ (by omega) (by omega)]
        · rw [if_neg hcond, if_neg hcond]
          rw [ih g s0 (by omega) (by omega)]

theorem replaceAll_nil (pat rep : List Char) : replaceAll pat rep [] = [] := rfl

theorem replaceAll_cons (pat rep : List Char) (c : Char) (s : List Char) :
    replaceAll pat rep (c :: s) =
      if pat ≠ [] ∧ pat.isPrefixOf (c :: s) = true then
        rep ++ replaceAll pat rep (List.drop (pat.length - 1) s)
      else c :: replaceAll pat rep s := by
  show (if pat ≠ [] ∧ pat.isPrefixOf (c :: s) = true then
      rep ++ replaceAllGo pat rep s.length (List.drop (pat.length - 1) s)
    else c :: replaceAllGo pat rep s.length s) = _
  by_cases hcond : pat ≠ [] ∧ pat.isPrefixOf (c :: s) = true
  · rw [if_pos hcond, if_pos hcond]
    unfold replaceAll
    congr 1
    exact replaceAllGo_fuel pat rep s.length _ _ (by simp [List.length_drop]) le_rfl
  · rw [if_neg hcond, if_neg hcond]
    rfl

theorem replaceAll_append_head {pat : List Char} (rep t : List Char) (hpat : pat ≠ []) :
    replaceAll pat rep (pat ++ t) = rep ++ replaceAll pat rep t := by
  obtain ⟨c0, pat0, rfl⟩ := List.exists_cons_of_ne_nil hpat
  rw [List.cons_append, replaceAll_cons, if_pos]
  · congr 1
    simp only [List.length_cons, Nat.add_sub_cancel]
    exact congrArg (replaceAll _ rep) (List.drop_left pat0 t)
  · constructor
    · simp
    · exact (isPrefixOf_eq_iff _ _).mpr ⟨t, by simp⟩

theorem replaceAll_of_not_occ {pat rep : List Char} :
    ∀ {s : List Char}, ¬ pat <:+: s → replaceAll pat rep s = s
  | [], _ => replaceAll_nil pat rep
  | c :: s, h => by
    have htail : ¬ pat <:+: s := by
      intro hi
      obtain ⟨a, b, hab⟩ := hi
      exact h ⟨c :: a, b, by simp [hab]⟩
    have hcond : ¬ (pat ≠ [] ∧ pat.isPrefixOf (c :: s) = true) := by
      rintro ⟨-, h2⟩
      exact h (infix_of_pfx ((isPrefixOf_eq_iff _ _).mp h2))
    rw [replaceAll_cons, if_neg hcond, replaceAll_of_not_occ htail]

theorem replaceAll_pieces_nil (pat rep : List Char) (hpat : pat ≠ []) :
    ∃ ps : List (List Char), ps ≠ [] ∧ ([] : List Char) = joinWith pat ps ∧
      (∀ u ∈ ps, ¬ pat <:+: u) ∧ replaceAll pat rep [] = joinWith rep ps := by
  refine ⟨[[]], by simp, by simp [joinWith], ?_, by simp [joinWith, replaceAll_nil]⟩
  intro u hu
  simp only [List.mem_singleton] at hu
  subst hu
  intro hi
  exact hpat ((List.infix_nil).mp hi)

theorem replaceAll_pieces (pat rep : List Char) (hpat : pat ≠ []) :
    ∀ n s, List.length s ≤ n → ∃ ps : List (List Char), ps ≠ [] ∧
      s = joinWith pat ps ∧ (∀ u ∈ ps, ¬ pat <:+: u) ∧
      replaceAll pat rep s = joinWith rep ps := by
  intro n
  induction n with
  | zero =>
    intro s hs
    have hz : s = [] := List.length_eq_zero.mp (Nat.le_zero.mp hs)
    subst hz
    exact replaceAll_pieces_nil pat rep hpat
  | succ n ih =>
    intro s hs
    cases s with
    | nil => exact replaceAll_pieces_nil pat rep hpat
    | cons c s1 =>
      by_cases hm : pat.isPrefixOf (c :: s1) = true
      · obtain ⟨t, ht⟩ := (isPrefixOf_eq_iff _ _).mp hm
        have hlen : List.length t ≤ n := by
          have h1 : pat.length + t.length = s1.length + 1 := by
            rw [← List.length_append, ht]
            rfl
          have h2 : 1 ≤ pat.length := by
            cases pat with
            | nil => exact absurd rfl hpat
            | cons a l => simp
          simp only [List.length_cons] at hs
          omega
        obtain ⟨ps1, hne1, hjoin1, hfree1, hrep1⟩ := ih t hlen
        obtain ⟨p0, ps2, rfl⟩ := List.exists_cons_of_ne_nil hne1
        refine ⟨[] :: p0 :: ps2, by simp, ?_, ?_, ?_⟩
        · rw [joinWith_pair, ← hjoin1]
          simp [← ht]
        · intro u hu
          rcases List.mem_cons.mp hu with rfl | hu2
          · intro hi
            exact hpat ((List.infix_nil).mp hi)
          · exact hfree1 u hu2
        · rw [← ht, replaceAll_append_head rep t hpat, hrep1, joinWith_pair]
          simp
      · obtain ⟨ps1, hne1, hjoin1, hfree1, hrep1⟩ := ih s1 (by
          simp only [List.length_cons] at hs
          omega)
        obtain ⟨u0, rest, rfl⟩ := List.exists_cons_of_ne_nil hne1
        have hcond : ¬ (pat ≠ [] ∧ pat.isPrefixOf (c :: s1) = true) := by
          rintro ⟨-, h2⟩
          exact hm h2
        refine ⟨(c :: u0) :: rest, by simp, ?_, ?_, ?_⟩
        · rw [joinWith_head_cons, ← hjoin1]
        · intro u hu
          rcases List.mem_cons.mp hu with rfl | hu2
          · intro hi
            rcases List.infix_cons_iff.mp hi with hp | hi2
            · have hu0pfx : (c :: u0) <+: (c :: s1) := by
                cases rest with
                | nil =>
                  have h3 : s1 = u0 := by simpa [joinWith] using hjoin1
                  rw [h3]
                | cons v us =>
                  refine ⟨pat ++ joinWith pat (v :: us), ?_⟩
                  rw [hjoin1, joinWith_pair]
                  simp [List.append_assoc]
              exact hm ((isPrefixOf_eq_iff _ _).mpr (hp.trans hu0pfx))
            · exact hfree1 u0 (by simp) hi2
          · exact hfree1 u (List.mem_cons_of_mem u0 hu2)
        · rw [replaceAll_cons, if_neg hcond, hrep1, joinWith_head_cons]

theorem replaceAll_decomp (pat rep s : List Char) (hpat : pat ≠ []) :
    ∃ ps : List (List Char), ps ≠ [] ∧
      s = joinWith pat ps ∧ (∀ u ∈ ps, ¬ pat <:+: u) ∧
      replaceAll pat rep s = joinWith rep ps :=
  replaceAll_pieces pat rep hpat s.length s le_rfl

theorem not_infix_replaceAll_self {pat rep : List Char} (hpat : pat ≠ [])
    (h1 : containsSeq pat rep = false) (h2 : containsSeq rep pat = false)
    (h3 : noSufStarts rep pat = true) (h4 : noPreEnds rep pat = true)
    (s : List Char) : ¬ pat <:+: replaceAll pat rep s := by
  obtain ⟨ps, hne, hjoin, hfree, hrepl⟩ := replaceAll_decomp pat rep s hpat
  rw [hrepl]
  refine not_infix_joinWith hpat ?_ ?_ (noSufStarts_spec h3) (noPreEnds_spec h4) ps hfree
  · rw [← containsSeq_eq_iff, h1]
    simp
  · rw [← containsSeq_eq_iff, h2]
    simp

theorem not_infix_replaceAll_other {q pat rep : List Char} (hq : q ≠ [])
    (hpat : pat ≠ [])
    (h1 : containsSeq q rep = false) (h2 : containsSeq rep q = false)
    (h3 : noSufStarts rep q = true) (h4 : noPreEnds rep q = true)
    {s : List Char} (hs : ¬ q <:+: s) : ¬ q <:+: replaceAll pat rep s := by
  obtain ⟨ps, hne, hjoin, hfree, hrepl⟩ := replaceAll_decomp pat rep s hpat
  rw [hrepl]
  refine not_infix_joinWith hq ?_ ?_ (noSufStarts_spec h3) (noPreEnds_spec h4) ps ?_
  · rw [← containsSeq_eq_iff, h1]
    simp
  · rw [← containsSeq_eq_iff, h2]
    simp
  · intro u hu hinf
    refine hs (hinf.trans ?_)
    rw [hjoin]
    exact piece_infix_joinWith pat ps u hu

/-! ### Claim C7: patch_config idempotence -/

/-- C7: for every config content and fix mode, `patch_config` applied twice
with the same flag equals `patch_config` applied once, and with
`fix_mode = false` the content is returned unmodified. -/
theorem C7_patch_config_idempotent (c : List Char) (fm : Bool) :
    patch_config (patch_config c fm) fm = patch_config c fm ∧
      patch_config c false = c := by
  refine ⟨?_, by simp [patch_config]⟩
  cases fm with
  | false => simp [patch_config]
  | true =>
    have hP1 : RUFF_CHECK_OLD ≠ [] := by decide
    have hP2 : RUFF_FORMAT_OLD ≠ [] := by decide
    have hx : ¬ RUFF_CHECK_OLD <:+: replaceAll RUFF_CHECK_OLD RUFF_CHECK_NEW c :=
      not_infix_replaceAll_self hP1 (by decide) (by decide) (by decide) (by decide) c
    have hy1 : ¬ RUFF_CHECK_OLD <:+:
        replaceAll RUFF_FORMAT_OLD RUFF_FORMAT_NEW
          (replaceAll RUFF_CHECK_OLD RUFF_CHECK_NEW c) :=
      not_infix_replaceAll_other hP1 hP2 (by decide) (by decide) (by decide)
        (by decide) hx
    have hy2 : ¬ RUFF_FORMAT_OLD <:+:
        replaceAll RUFF_FORMAT_OLD RUFF_FORMAT_NEW
          (replaceAll RUFF_CHECK_OLD RUFF_CHECK_NEW c) :=
      not_infix_replaceAll_self hP2 (by decide) (by decide) (by decide) (by decide) _
    simp only [patch_config, if_true]
    rw [replaceAll_of_not_occ hy1, replaceAll_of_not_occ hy2]

/-! ### Claim C6: patch_hook_script -/

/-- C6 (counterexample): with a copyright value that is itself the license
token, the sequential replacements of `patch_hook_script` also rewrite the
substituted value, so the output differs from the simultaneous
specification reading (which would leave the substituted value intact). -/
theorem C6_patch_hook_script_cex :
    patch_hook_script TOK_COPYRIGHT TOK_LICENSE "L".data "T".data ≠
      patchHookScriptSpec TOK_LICENSE "L".data "T".data TOK_COPYRIGHT := by
  decide

/-- C6 (amended): `patch_hook_script` performs three sequential single-token
replacement passes (copyright, then license, then template); each pass
replaces every occurrence of its token in the text it receives and leaves
all other text of that pass's input byte-identical, witnessed by the piece
decompositions: the pass input splits into token-free pieces joined by the
token, and the pass output is the same pieces joined by the resolved
value. -/
theorem C6_patch_hook_script_stages (s c l t : List Char) :
    ∃ ps1 ps2 ps3 : List (List Char),
      (s = joinWith TOK_COPYRIGHT ps1 ∧ (∀ u ∈ ps1, ¬ TOK_COPYRIGHT <:+: u) ∧
        replaceAll TOK_COPYRIGHT c s = joinWith c ps1) ∧
      (replaceAll TOK_COPYRIGHT c s = joinWith TOK_LICENSE ps2 ∧
        (∀ u ∈ ps2, ¬ TOK_LICENSE <:+: u) ∧
        replaceAll TOK_LICENSE l (replaceAll TOK_COPYRIGHT c s) = joinWith l ps2) ∧
      (replaceAll TOK_LICENSE l (replaceAll TOK_COPYRIGHT c s) =
          joinWith TOK_TEMPLATE ps3 ∧
        (∀ u ∈ ps3, ¬ TOK_TEMPLATE <:+: u) ∧
        patch_hook_script s c l t = joinWith t ps3) := by
  obtain ⟨ps1, _, hj1, hf1, hr1⟩ :=
    replaceAll_decomp TOK_COPYRIGHT c s (by decide)
  obtain ⟨ps2, _, hj2, hf2, hr2⟩ :=
    replaceAll_decomp TOK_LICENSE l (replaceAll TOK_COPYRIGHT c s) (by decide)
  obtain ⟨ps3, _, hj3, hf3, hr3⟩ :=
    replaceAll_decomp TOK_TEMPLATE t
      (replaceAll TOK_LICENSE l (replaceAll TOK_COPYRIGHT c s)) (by decide)
  exact ⟨ps1, ps2, ps3, ⟨hj1, hf1, hr1⟩, ⟨hj2, hf2, hr2⟩, ⟨hj3, hf3, hr3⟩⟩

/-! ### Claim C8: empty-string normalisation -/

/-- C8 (counterexample): supplying the empty string as the positional
branch argument is not treated as unset; the resolved configuration keeps
the empty branch instead of the default `main`. -/
theorem C8_resolve_config_cex :
    resolve_config (some "") none none none ≠
      resolve_config none none none none := by
  decide

/-- C8 (amended): empty-string inputs for copyright, license and template
are treated as unset (they resolve exactly as an absent input does), while
the branch argument is taken verbatim, so an empty branch stays empty. -/
theorem C8_resolve_config_amended (b c l t : Option String) (bs : String) :
    resolve_config b (some "") l t = resolve_config b none l t ∧
    resolve_config b c (some "") t = resolve_config b c none t ∧
    resolve_config b c l (some "") = resolve_config b c l none ∧
    (resolve_config (some bs) c l t).branch = bs := by
  refine ⟨?_, ?_, ?_, rfl⟩ <;> simp [resolve_config]

/-! ### Claim C9: cleanup never raises -/

theorem unlink_missing_ok_ok (fs : FS) (p : List String) :
    ∃ fs1, fs.unlink p true = .ok fs1 := by
  unfold FS.unlink
  by_cases h : (lookupFile p fs.files).isSome = true
  · rw [if_pos h]
    exact ⟨_, rfl⟩
  · rw [if_neg h]
    simp

theorem cleanupOne_ok (fs : FS) (info : Option CleanupInfo) :
    ∃ fs1, cleanupOne fs info = .ok fs1 := by
  cases info with
  | none => exact ⟨fs, rfl⟩
  | some i =>
    obtain ⟨fs1, h⟩ := unlink_missing_ok_ok fs i.file
    exact ⟨i.dirs.reverse.foldl rmdirQuiet fs1, by simp [cleanupOne, h]⟩

theorem cleanup_downloads_ok : ∀ (l : List (Option CleanupInfo)) (fs : FS),
    ∃ fs1, cleanup_downloads l fs = .ok fs1
  | [], fs => ⟨fs, rfl⟩
  | info :: rest, fs => by
    obtain ⟨fs1, h⟩ := cleanupOne_ok fs info
    obtain ⟨fs2, h2⟩ := cleanup_downloads_ok rest fs1
    exact ⟨fs2, by simp [cleanup_downloads, h, h2]⟩

/-- C9: for every cleanup-record list and file system, `cleanup_downloads`
completes normally: missing recorded files are absorbed by
`missing_ok=True`, and directory-removal errors are absorbed by the
`try/except OSError` around `rmdir`, so no exception escapes. -/
theorem C9_cleanup_downloads_total (l : List (Option CleanupInfo)) (fs : FS) :
    ∃ fs1, cleanup_downloads l fs = Except.ok fs1 :=
  cleanup_downloads_ok l fs

/-! ### Claim C10: termination of the directory-recording loop -/

theorem collectDirsLoop_rel : ∀ (fuel : Nat) (ex : PyPath → Bool)
    (parts : List String) (acc : List PyPath), parts.length < fuel →
    ∃ res, collectDirsLoop ex fuel ⟨false, parts⟩ acc = some res := by
  intro fuel
  induction fuel with
  | zero =>
    intro ex parts acc h
    omega
  | succ n ih =>
    intro ex parts acc h
    by_cases hd : (⟨false, parts⟩ : PyPath) = dotPath
    · exact ⟨acc, by rw [collectDirsLoop, if_pos hd]⟩
    · have hne : parts ≠ [] := by
        intro h0
        exact hd (by simp [dotPath, h0])
      have hlen : parts.dropLast.length < n := by
        have h1 : parts.dropLast.length = parts.length - 1 := List.length_dropLast parts
        have h2 : 1 ≤ parts.length := by
          cases parts with
          | nil => exact absurd rfl hne
          | cons a l => simp
        omega
      obtain ⟨res, hres⟩ :=
        ih ex parts.dropLast (if ex ⟨false, parts⟩ then acc else acc ++ [⟨false, parts⟩]) hlen
      exact ⟨res, by rw [collectDirsLoop, if_neg hd]; exact hres⟩

theorem collectDirsLoop_abs : ∀ (fuel : Nat) (ex : PyPath → Bool)
    (parts : List String) (acc : List PyPath),
    collectDirsLoop ex fuel ⟨true, parts⟩ acc = none := by
  intro fuel
  induction fuel with
  | zero =>
    intro ex parts acc
    rfl
  | succ n ih =>
    intro ex parts acc
    have hd : (⟨true, parts⟩ : PyPath) ≠ dotPath := by simp [dotPath]
    rw [collectDirsLoop, if_neg hd]
    exact ih ex parts.dropLast _

/-- C10: for every relative starting path the directory-recording loop of
`download_if_missing` terminates (the parent chain reaches `Path(".")`
within the number of components), and the relative-path precondition is
required: from an absolute starting path the loop never reaches `.` and
runs forever (exhausts every fuel bound). -/
theorem C10_collect_loop_termination (ex : PyPath → Bool) (p : PyPath)
    (acc : List PyPath) :
    (p.absolute = false → ∀ fuel, p.parts.length < fuel →
      ∃ res, collectDirsLoop ex fuel p acc = some res) ∧
    (p.absolute = true → ∀ fuel, collectDirsLoop ex fuel p acc = none) := by
  obtain ⟨b, parts⟩ := p
  constructor
  · intro habs fuel hfuel
    simp only at habs
    subst habs
    exact collectDirsLoop_rel fuel ex parts acc hfuel
  · intro habs fuel
    simp only at habs
    subst habs
    exact collectDirsLoop_abs fuel ex parts acc

/-- Witness for C10: the loop terminates on the concrete relative path
`a/b` with fuel 3. -/
theorem C10_collect_loop_termination_witness :
    ∃ res, collectDirsLoop (fun _ => false) 3 ⟨false, ["a", "b"]⟩ [] = some res :=
  (C10_collect_loop_termination (fun _ => false) ⟨false, ["a", "b"]⟩ []).1 rfl 3
    (by decide)

/-! ### Claim C5: cleanup records only for created paths -/

theorem missingAncestorsFrom_not_exists (fs : FS) :
    ∀ (l done : List String), ∀ d ∈ missingAncestorsFrom fs done l,
      fs.pathExists d = false
  | [], done => by
    intro d hd
    simp [missingAncestorsFrom] at hd
  | a :: rest, done => by
    intro d hd
    rw [missingAncestorsFrom] at hd
    rcases List.mem_append.mp hd with h1 | h2
    · exact missingAncestorsFrom_not_exists fs rest (done ++ [a]) d h1
    · by_cases hex : fs.pathExists (done ++ [a]) = true
      · rw [if_pos hex] at h2
        simp at h2
      · rw [if_neg hex] at h2
        simp only [List.mem_singleton] at h2
        subst h2
        revert hex
        cases fs.pathExists (done ++ [a]) <;> simp

theorem missingAncestors_not_exists (fs : FS) (check : List String) :
    ∀ d ∈ missingAncestors fs check, fs.pathExists d = false :=
  missingAncestorsFrom_not_exists fs check []

/-- C5: a cleanup record is only produced for paths the run itself created:
if the target already exists, `download_if_missing` returns no record and
leaves the file system (and hence the existing file's content) unchanged;
and whenever a record is produced, its file is the target, the target did
not exist beforehand, and every recorded directory did not exist
beforehand. -/
theorem C5_cleanup_record_only_created (p : List String) (url desc : String)
    (resp : Option (List Char)) (fs : FS) :
    (fs.pathExists p = true → download_if_missing p url desc resp fs = (none, fs, [])) ∧
    (∀ info, (download_if_missing p url desc resp fs).1 = some info →
      info.file = p ∧ fs.pathExists p = false ∧
      ∀ d ∈ info.dirs, fs.pathExists d = false) := by
  constructor
  · intro h
    unfold download_if_missing
    rw [if_pos h]
  · intro info hinfo
    by_cases hex : fs.pathExists p = true
    · unfold download_if_missing at hinfo
      rw [if_pos hex] at hinfo
      cases hinfo
    · unfold download_if_missing at hinfo
      rw [if_neg hex] at hinfo
      cases resp with
      | none => cases hinfo
      | some content =>
        simp only [Option.some.injEq] at hinfo
        subst hinfo
        refine ⟨rfl, by revert hex; cases fs.pathExists p <;> simp, ?_⟩
        intro d hd
        rw [List.mem_reverse] at hd
        exact missingAncestors_not_exists fs p.dropLast d hd

/-- Witness for C5: on a file system where the target exists,
`download_if_missing` is the identity with no cleanup record. -/
theorem C5_cleanup_record_only_created_witness :
    download_if_missing ["present.txt"] "u" "d" none ⟨[(["present.txt"], [])], []⟩ =
      (none, ⟨[(["present.txt"], [])], []⟩, []) :=
  (C5_cleanup_record_only_created ["present.txt"] "u" "d" none
    ⟨[(["present.txt"], [])], []⟩).1 (by decide)

/-! ### File-system kit: how each operation affects file lookups -/

theorem lookupFile_removeFileEntry_ne {p q : List String} (h : q ≠ p) :
    ∀ l, lookupFile q (removeFileEntry p l) = lookupFile q l
  | [] => rfl
  | e :: rest => by
    by_cases he : e.1 = p
    · have hne : e.1 ≠ q := by
        rw [he]
        exact fun hh => h hh.symm
      simp only [removeFileEntry, if_pos he, lookupFile, if_neg hne]
      exact lookupFile_removeFileEntry_ne h rest
    · simp only [removeFileEntry, if_neg he, lookupFile]
      rw [lookupFile_removeFileEntry_ne h rest]

theorem lookupFile_removeFileEntry_self (p : List String) :
    ∀ l, lookupFile p (removeFileEntry p l) = none
  | [] => rfl
  | e :: rest => by
    by_cases he : e.1 = p
    · simp only [removeFileEntry, if_pos he]
      exact lookupFile_removeFileEntry_self p rest
    · simp only [removeFileEntry, if_neg he, lookupFile, if_neg he]
      exact lookupFile_removeFileEntry_self p rest

theorem readText_writeText_self (fs : FS) (p : List String) (c : List Char) :
    (fs.writeText p c).readText p = some c := by
  simp [FS.writeText, FS.readText, lookupFile]

theorem readText_writeText_ne (fs : FS) {p q : List String} (c : List Char)
    (h : q ≠ p) : (fs.writeText p c).readText q = fs.readText q := by
  simp only [FS.writeText, FS.readText, lookupFile]
  rw [if_neg (fun hh => h hh.symm), lookupFile_removeFileEntry_ne h fs.files]

theorem addDir_files (fs : FS) (p : List String) :
    (fs.addDir p).files = fs.files := by
  unfold FS.addDir
  split <;> rfl

theorem mkdirAlong_files : ∀ (l : List String) (fs : FS) (done : List String),
    (FS.mkdirAlong fs done l).files = fs.files
  | [], fs, done => rfl
  | a :: rest, fs, done => by
    show (FS.mkdirAlong (fs.addDir (done ++ [a])) (done ++ [a]) rest).files = fs.files
    rw [mkdirAlong_files rest _ _, addDir_files]

theorem readText_mkdirParents (fs : FS) (p q : List String) :
    (fs.mkdirParents p).readText q = fs.readText q := by
  unfold FS.readText FS.mkdirParents
  rw [mkdirAlong_files]

theorem rmdir_files (fs : FS) (d : List String) :
    ∀ fs1, fs.rmdir d = .ok fs1 → fs1.files = fs.files := by
  intro fs1 h
  unfold FS.rmdir at h
  by_cases hc : (fs.dirs.contains d && !fs.dirNonempty d) = true
  · rw [if_pos hc] at h
    cases h
    rfl
  · rw [if_neg hc] at h
    cases h

theorem rmdirQuiet_files (fs : FS) (d : List String) :
    (rmdirQuiet fs d).files = fs.files := by
  unfold rmdirQuiet
  cases hr : fs.rmdir d with
  | ok fs1 =>
    exact rmdir_files fs d fs1 hr
  | error e => rfl

theorem foldl_rmdirQuiet_files : ∀ (ds : List (List String)) (fs : FS),
    (ds.foldl rmdirQuiet fs).files = fs.files
  | [], fs => rfl
  | d :: rest, fs => by
    rw [List.foldl_cons, foldl_rmdirQuiet_files rest _, rmdirQuiet_files]

theorem unlink_ok_files (fs : FS) (p : List String) (mo : Bool) :
    ∀ fs1, fs.unlink p mo = .ok fs1 →
      ∀ q, q ≠ p → lookupFile q fs1.files = lookupFile q fs.files := by
  intro fs1 h q hq
  unfold FS.unlink at h
  by_cases hs : (lookupFile p fs.files).isSome = true
  · rw [if_pos hs] at h
    cases h
    exact lookupFile_removeFileEntry_ne hq fs.files
  · rw [if_neg hs] at h
    cases mo with
    | true =>
      simp only [if_true] at h
      cases h
      rfl
    | false => simp at h

theorem unlinkQuiet_readText_ne (fs : FS) {p q : List String} (h : q ≠ p) :
    (unlinkQuiet fs p).readText q = fs.readText q := by
  unfold unlinkQuiet
  cases hr : fs.unlink p true with
  | ok fs1 => exact unlink_ok_files fs p true fs1 hr q h
  | error e => rfl

theorem pathExists_of_readText {fs : FS} {q : List String} {ct : List Char}
    (h : fs.readText q = some ct) : fs.pathExists q = true := by
  unfold FS.pathExists FS.fileAt
  rw [show lookupFile q fs.files = some ct from h]
  simp

theorem cleanupOne_readText_ne (fs : FS) (info : Option CleanupInfo)
    (q : List String) (hq : ∀ i, info = some i → i.file ≠ q) :
    ∀ fs1, cleanupOne fs info = .ok fs1 → fs1.readText q = fs.readText q := by
  intro fs1 h
  cases info with
  | none =>
    cases h
    rfl
  | some i =>
    simp only [cleanupOne] at h
    cases hu : fs.unlink i.file true with
    | ok fs2 =>
      rw [hu] at h
      cases h
      have h3 := unlink_ok_files fs i.file true fs2 hu q (Ne.symm (hq i rfl))
      show FS.readText (i.dirs.reverse.foldl rmdirQuiet fs2) q = fs.readText q
      unfold FS.readText
      rw [foldl_rmdirQuiet_files]
      exact h3
    | error e =>
      rw [hu] at h
      cases h

theorem cleanup_downloads_readText_ne :
    ∀ (l : List (Option CleanupInfo)) (fs : FS) (q : List String),
      (∀ info ∈ l, ∀ i, info = some i → i.file ≠ q) →
      ∀ fs1, cleanup_downloads l fs = .ok fs1 → fs1.readText q = fs.readText q
  | [], fs, q, _, fs1, h => by
    cases h
    rfl
  | info :: rest, fs, q, hq, fs1, h => by
    unfold cleanup_downloads at h
    cases hc : cleanupOne fs info with
    | ok fs2 =>
      rw [hc] at h
      have e1 := cleanupOne_readText_ne fs info q (fun i hi => hq info (by simp) i hi) fs2 hc
      have e2 := cleanup_downloads_readText_ne rest fs2 q
        (fun inf hin => hq inf (List.mem_cons_of_mem _ hin)) fs1 h
      rw [e2, e1]
    | error e =>
      rw [hc] at h
      cases h

theorem download_if_missing_readText (p : List String) (url desc : String)
    (resp : Option (List Char)) (fs : FS) (q : List String) (ct : List Char)
    (hq : fs.readText q = some ct) :
    (download_if_missing p url desc resp fs).2.1.readText q = some ct := by
  unfold download_if_missing
  by_cases hex : fs.pathExists p = true
  · rw [if_pos hex]
    exact hq
  · rw [if_neg hex]
    have hqp : q ≠ p := by
      intro hh
      subst hh
      exact hex (pathExists_of_readText hq)
    cases resp with
    | none =>
      show (fs.mkdirParents p.dropLast).readText q = some ct
      rw [readText_mkdirParents]
      exact hq
    | some content =>
      show ((fs.mkdirParents p.dropLast).writeText p content).readText q = some ct
      rw [readText_writeText_ne _ content hqp, readText_mkdirParents]
      exact hq

theorem download_entry_not_preexisting (p : List String) (url desc : String)
    (resp : Option (List Char)) (fs : FS) :
    ∀ i, (download_if_missing p url desc resp fs).1 = some i →
      i.file = p ∧ fs.pathExists p = false := by
  intro i hi
  unfold download_if_missing at hi
  by_cases hex : fs.pathExists p = true
  · rw [if_pos hex] at hi
    cases hi
  · rw [if_neg hex] at hi
    cases resp with
    | none => cases hi
    | some content =>
      simp only [Option.some.injEq] at hi
      subst hi
      refine ⟨rfl, ?_⟩
      revert hex
      cases fs.pathExists p <;> simp

/-! ### Stage lemmas for mainRun -/

theorem acquireConfig_ok (args : Args) (env : Env) (fm : Bool) (fs0 : FS)
    (cp : List String) (fs1 : FS)
    (h : acquireConfig args env fm fs0 = .ok (cp, fs1)) :
    cp = env.tempName ∧
      ∀ q, q ≠ env.tempName → fs1.readText q = fs0.readText q := by
  unfold acquireConfig at h
  cases hc : args.config with
  | none =>
    rw [hc] at h
    dsimp only at h
    cases hf : env.configFetch with
    | none =>
      rw [hf] at h
      cases h
    | some content =>
      rw [hf] at h
      simp only [Except.ok.injEq, Prod.mk.injEq] at h
      obtain ⟨h1, h2⟩ := h
      subst h1
      subst h2
      refine ⟨rfl, ?_⟩
      intro q hq
      rw [readText_writeText_ne _ _ hq, readText_writeText_ne _ _ hq]
  | some cp0 =>
    rw [hc] at h
    dsimp only at h
    cases hr : fs0.readText cp0 with
    | none =>
      rw [hr] at h
      cases h
    | some content =>
      rw [hr] at h
      simp only [Except.ok.injEq, Prod.mk.injEq] at h
      obtain ⟨h1, h2⟩ := h
      subst h1
      subst h2
      refine ⟨rfl, ?_⟩
      intro q hq
      rw [readText_writeText_ne _ _ hq, readText_writeText_ne _ _ hq]

theorem acquireConfig_err (args : Args) (env : Env) (fm : Bool) (fs0 : FS)
    (e : RunError) (fs1 : FS)
    (h : acquireConfig args env fm fs0 = .error (e, fs1)) :
    ∀ q, q ≠ env.tempName → fs1.readText q = fs0.readText q := by
  unfold acquireConfig at h
  cases hc : args.config with
  | none =>
    rw [hc] at h
    dsimp only at h
    cases hf : env.configFetch with
    | none =>
      rw [hf] at h
      simp only [Except.error.injEq, Prod.mk.injEq] at h
      obtain ⟨-, h2⟩ := h
      subst h2
      intro q hq
      rw [readText_writeText_ne _ _ hq]
    | some content =>
      rw [hf] at h
      cases h
  | some cp0 =>
    rw [hc] at h
    dsimp only at h
    cases hr : fs0.readText cp0 with
    | none =>
      rw [hr] at h
      simp only [Except.error.injEq, Prod.mk.injEq] at h
      obtain ⟨-, h2⟩ := h
      subst h2
      intro q hq
      rfl
    | some content =>
      rw [hr] at h
      cases h

theorem acquireHook_ok (args : Args) (env : Env) (cfg : RunConfig) (fs1 : FS)
    (cl1 : List (Option CleanupInfo)) (fs2 : FS)
    (h : acquireHook args env cfg fs1 = .ok (cl1, fs2)) :
    (∀ q, q ≠ hookPath → fs2.readText q = fs1.readText q) ∧
      (∀ info ∈ cl1, ∀ i, info = some i → i.file = hookPath ∧ i.dirs = []) := by
  unfold acquireHook at h
  cases hs : hookScriptSource args env fs1 with
  | error e =>
    rw [hs] at h
    cases h
  | ok script_content =>
    rw [hs] at h
    simp only [Except.ok.injEq, Prod.mk.injEq] at h
    obtain ⟨h1, h2⟩ := h
    subst h2
    constructor
    · intro q hq
      rw [readText_writeText_ne _ _ hq]
    · intro info hin i hii
      subst h1
      by_cases hex : fs1.pathExists hookPath = true
      · rw [if_pos hex] at hin
        cases hin
      · rw [if_neg hex] at hin
        simp only [List.mem_singleton] at hin
        subst hin
        cases hii
        exact ⟨rfl, rfl⟩

theorem acquireHook_err (args : Args) (env : Env) (cfg : RunConfig) (fs1 : FS)
    (e : RunError) (fs2 : FS)
    (h : acquireHook args env cfg fs1 = .error (e, fs2)) : fs2 = fs1 := by
  unfold acquireHook at h
  cases hs : hookScriptSource args env fs1 with
  | error e0 =>
    rw [hs] at h
    simp only [Except.error.injEq, Prod.mk.injEq] at h
    exact h.2.symm
  | ok script_content =>
    rw [hs] at h
    cases h

theorem auxDownloads_readText (env : Env) (cfg : RunConfig) (fs2 : FS)
    (q : List String) (ct : List Char) (hq : fs2.readText q = some ct) :
    (auxDownloads env cfg fs2).2.1.readText q = some ct ∧
      (∀ info ∈ (auxDownloads env cfg fs2).1, ∀ i, info = some i → i.file ≠ q) := by
  rcases hd1 : download_if_missing (templatePath cfg.templateName)
      (TEMPLATE_URL cfg.branch cfg.templateName) (descTemplate cfg.templateName)
      env.templateFetch fs2 with ⟨ci1, fsx, w1⟩
  rcases hd2 : download_if_missing (licensePath cfg.license)
      (LICENSE_URL cfg.branch cfg.license) (descLicense cfg.license)
      env.licenseFetch fsx with ⟨ci2, fsy, w2⟩
  have h1 := download_if_missing_readText (templatePath cfg.templateName)
    (TEMPLATE_URL cfg.branch cfg.templateName) (descTemplate cfg.templateName)
    env.templateFetch fs2 q ct hq
  rw [hd1] at h1
  dsimp only at h1
  have h2 := download_if_missing_readText (licensePath cfg.license)
    (LICENSE_URL cfg.branch cfg.license) (descLicense cfg.license)
    env.licenseFetch fsx q ct h1
  rw [hd2] at h2
  dsimp only at h2
  unfold auxDownloads
  rw [hd1]
  dsimp only
  rw [hd2]
  dsimp only
  constructor
  · exact h2
  · intro info hin i hii
    simp only [List.mem_cons, List.mem_singleton, List.not_mem_nil, or_false] at hin
    rcases hin with rfl | rfl
    · have h3 := download_entry_not_preexisting (templatePath cfg.templateName)
        (TEMPLATE_URL cfg.branch cfg.templateName) (descTemplate cfg.templateName)
        env.templateFetch fs2 i (by rw [hd1]; exact hii)
      intro hiq
      have heq : templatePath cfg.templateName = q := h3.1.symm.trans hiq
      rw [heq] at h3
      rw [pathExists_of_readText hq] at h3
      exact Bool.noConfusion h3.2
    · have h3 := download_entry_not_preexisting (licensePath cfg.license)
        (LICENSE_URL cfg.branch cfg.license) (descLicense cfg.license)
        env.licenseFetch fsx i (by rw [hd2]; exact hii)
      intro hiq
      have heq : licensePath cfg.license = q := h3.1.symm.trans hiq
      rw [heq] at h3
      rw [pathExists_of_readText h1] at h3
      exact Bool.noConfusion h3.2

/-! ### Directory-creation characterisation -/

theorem dirAt_addDir (fs : FS) (p d : List String)
    (h : (fs.addDir p).dirAt d = true) : d = p ∨ fs.dirAt d = true := by
  unfold FS.addDir at h
  by_cases hc : fs.dirs.contains p = true
  · rw [if_pos hc] at h
    exact Or.inr h
  · rw [if_neg hc] at h
    unfold FS.dirAt at h ⊢
    simp only [List.contains_cons, Bool.or_eq_true, beq_iff_eq] at h
    rcases h with h | h
    · exact Or.inl h
    · exact Or.inr h

theorem mkdirAlong_dirAt : ∀ (l : List String) (fs : FS) (done d : List String),
    (FS.mkdirAlong fs done l).dirAt d = true →
    fs.dirAt d = true ∨ ∃ t, t ≠ [] ∧ t <+: l ∧ d = done ++ t
  | [], fs, done, d => fun h => Or.inl h
  | a :: rest, fs, done, d => by
    intro h
    have h2 := mkdirAlong_dirAt rest (fs.addDir (done ++ [a])) (done ++ [a]) d h
    rcases h2 with h2 | ⟨t, ht1, ht2, ht3⟩
    · rcases dirAt_addDir fs (done ++ [a]) d h2 with rfl | h3
      · exact Or.inr ⟨[a], by simp, ⟨rest, rfl⟩, rfl⟩
      · exact Or.inl h3
    · refine Or.inr ⟨a :: t, by simp, ?_, ?_⟩
      · obtain ⟨z, hz⟩ := ht2
        exact ⟨z, by simp [hz]⟩
      · rw [ht3]
        simp

theorem pathExists_mkdirParents {fs : FS} {p q : List String}
    (h : (fs.mkdirParents p).pathExists q = true) :
    fs.pathExists q = true ∨ ∃ t, t ≠ [] ∧ t <+: p ∧ q = t := by
  unfold FS.pathExists at h ⊢
  rw [Bool.or_eq_true] at h
  rcases h with h | h
  · unfold FS.fileAt at h ⊢
    unfold FS.mkdirParents at h
    rw [show (FS.mkdirAlong fs [] p).files = fs.files from mkdirAlong_files p fs []] at h
    exact Or.inl (by rw [Bool.or_eq_true]; exact Or.inl h)
  · unfold FS.mkdirParents at h
    unfold FS.dirAt at h
    rcases mkdirAlong_dirAt p fs [] q h with h2 | ⟨t, ht1, ht2, ht3⟩
    · exact Or.inl (by rw [Bool.or_eq_true]; exact Or.inr h2)
    · exact Or.inr ⟨t, ht1, ht2, by simpa using ht3⟩

/-! ### exceptCleanup preservation -/

theorem exceptCleanup_readText (cp : Option (List String))
    (cl : List (Option CleanupInfo)) (fs : FS) (q : List String) (ct : List Char)
    (hq : fs.readText q = some ct)
    (hcp : ∀ x, cp = some x → q ≠ x)
    (hcl : ∀ info ∈ cl, ∀ i, info = some i → i.file ≠ q) :
    (exceptCleanup cp cl fs).readText q = some ct := by
  unfold exceptCleanup
  cases cp with
  | none =>
    dsimp only
    cases hc : cleanup_downloads cl fs with
    | ok fs2 =>
      dsimp only
      rw [cleanup_downloads_readText_ne cl fs q hcl fs2 hc]
      exact hq
    | error e =>
      dsimp only
      exact hq
  | some x =>
    dsimp only
    have hqx : q ≠ x := hcp x rfl
    have h1 : (unlinkQuiet fs x).readText q = some ct := by
      rw [unlinkQuiet_readText_ne fs hqx]
      exact hq
    cases hc : cleanup_downloads cl (unlinkQuiet fs x) with
    | ok fs2 =>
      dsimp only
      rw [cleanup_downloads_readText_ne cl _ q hcl fs2 hc]
      exact h1
    | error e =>
      dsimp only
      exact h1

/-! ### Claim C2: exit codes -/

/-- C2: for every run, if the downstream tool was invoked the process exits
with exactly the tool's exit code, and if the run aborted before invoking
the tool (a required fetch failed or another exception was raised) the
process exits with code 1. -/
theorem C2_exit_codes (args : Args) (env : Env) (fs0 : FS) :
    ((mainRun args env fs0).invoked = true →
      (mainRun args env fs0).exitCode = env.toolExit) ∧
    ((mainRun args env fs0).invoked = false →
      (mainRun args env fs0).exitCode = 1) := by
  unfold mainRun
  cases hc : acquireConfig args env (!args.no_fix) fs0 with
  | error ef =>
    obtain ⟨e, fs1⟩ := ef
    dsimp only
    exact ⟨fun h => Bool.noConfusion h, fun _ => rfl⟩
  | ok cf =>
    obtain ⟨cp, fs1⟩ := cf
    dsimp only
    cases hh : acquireHook args env
        (resolve_config args.branch args.copyright args.license args.template) fs1 with
    | error ef =>
      obtain ⟨e, fs2⟩ := ef
      dsimp only
      exact ⟨fun h => Bool.noConfusion h, fun _ => rfl⟩
    | ok chf =>
      obtain ⟨cl1, fs2⟩ := chf
      dsimp only
      unfold finishRun
      obtain ⟨fs5, hcl⟩ := cleanup_downloads_ok
        (cl1 ++ (auxDownloads env
          (resolve_config args.branch args.copyright args.license args.template) fs2).1)
        (unlinkQuiet (auxDownloads env
          (resolve_config args.branch args.copyright args.license args.template) fs2).2.1 cp)
      rw [hcl]
      dsimp only
      exact ⟨fun _ => rfl, fun h => Bool.noConfusion h⟩

/-- Witness for C2: a concrete run with local config and hook script that
reaches the downstream tool and exits with its exit code 5. -/
theorem C2_exit_codes_witness :
    (mainRun argsLocal envNoNet fsLocal).exitCode = 5 :=
  (C2_exit_codes argsLocal envNoNet fsLocal).1 (by decide)

/-! ### Claim C1: the working tree after a run -/

/-- C1 (counterexample): a pre-existing `reuse-annotate-hook.sh` in the
working directory is overwritten with its patched form and left so at
process exit, although the downstream tool never touched it: its content at
exit differs from its content at start. -/
theorem C1_working_tree_cex :
    fsCex1.readText hookPath = some TOK_COPYRIGHT ∧
      (mainRun argsCex1 envCex1 fsCex1).fs.readText hookPath ≠
        some TOK_COPYRIGHT := by
  constructor
  · decide
  · decide

/-- C1 (amended): every file that existed before the run — other than the
working-directory hook script `reuse-annotate-hook.sh`, which main
overwrites with the patched script, and the fresh temporary config path
chosen by `NamedTemporaryFile` (fresh by construction, expressed here as a
hypothesis) — has the same content at process exit as at process start, on
success and error paths alike. -/
theorem C1_pre_existing_files_amended (args : Args) (env : Env) (fs0 : FS)
    (p : List String) (ct : List Char) (hp : fs0.readText p = some ct)
    (hhook : p ≠ hookPath) (htmp : p ≠ env.tempName) :
    (mainRun args env fs0).fs.readText p = some ct := by
  unfold mainRun
  cases hc : acquireConfig args env (!args.no_fix) fs0 with
  | error ef =>
    obtain ⟨e, fs1⟩ := ef
    dsimp only
    have h1 : fs1.readText p = some ct := by
      rw [acquireConfig_err args env (!args.no_fix) fs0 e fs1 hc p htmp]
      exact hp
    exact exceptCleanup_readText none [] fs1 p ct h1
      (fun x hx => Option.noConfusion hx)
      (fun info hin => absurd hin (List.not_mem_nil info))
  | ok cf =>
    obtain ⟨cp, fs1⟩ := cf
    dsimp only
    obtain ⟨hcp, hpres1⟩ := acquireConfig_ok args env (!args.no_fix) fs0 cp fs1 hc
    have h1 : fs1.readText p = some ct := by
      rw [hpres1 p htmp]
      exact hp
    cases hh : acquireHook args env
        (resolve_config args.branch args.copyright args.license args.template) fs1 with
    | error ef =>
      obtain ⟨e, fs2⟩ := ef
      dsimp only
      have h2 : fs2.readText p = some ct := by
        rw [acquireHook_err args env _ fs1 e fs2 hh]
        exact h1
      refine exceptCleanup_readText (some cp) [] fs2 p ct h2 ?_
        (fun info hin => absurd hin (List.not_mem_nil info))
      intro x hx
      cases hx
      rw [hcp]
      exact htmp
    | ok chf =>
      obtain ⟨cl1, fs2⟩ := chf
      dsimp only
      obtain ⟨hpres2, hcl1⟩ := acquireHook_ok args env _ fs1 cl1 fs2 hh
      have h2 : fs2.readText p = some ct := by
        rw [hpres2 p hhook]
        exact h1
      unfold finishRun
      obtain ⟨haux1, haux2⟩ := auxDownloads_readText env
        (resolve_config args.branch args.copyright args.license args.template)
        fs2 p ct h2
      have h4 : (unlinkQuiet (auxDownloads env
          (resolve_config args.branch args.copyright args.license args.template)
          fs2).2.1 cp).readText p = some ct := by
        rw [unlinkQuiet_readText_ne _ (by rw [hcp]; exact htmp)]
        exact haux1
      have hfiles : ∀ info ∈ cl1 ++ (auxDownloads env
          (resolve_config args.branch args.copyright args.license args.template)
          fs2).1, ∀ i, info = some i → i.file ≠ p := by
        intro info hin i hii
        rcases List.mem_append.mp hin with h5 | h6
        · obtain ⟨hf, -⟩ := hcl1 info h5 i hii
          rw [hf]
          exact Ne.symm hhook
        · exact haux2 info h6 i hii
      cases hck : cleanup_downloads (cl1 ++ (auxDownloads env
          (resolve_config args.branch args.copyright args.license args.template)
          fs2).1) (unlinkQuiet (auxDownloads env
          (resolve_config args.branch args.copyright args.license args.template)
          fs2).2.1 cp) with
      | ok fs5 =>
        dsimp only
        rw [cleanup_downloads_readText_ne _ _ p hfiles fs5 hck]
        exact h4
      | error e =>
        dsimp only
        exact exceptCleanup_readText (some cp) _ _ p ct h4
          (fun x hx => by cases hx; rw [hcp]; exact htmp) hfiles

/-- Witness for the amended C1: in the concrete local run, the pre-existing
local config file still holds its original content at exit. -/
theorem C1_pre_existing_files_amended_witness :
    (mainRun argsLocal envNoNet fsLocal).fs.readText ["cfg.yml"] = some [] :=
  C1_pre_existing_files_amended argsLocal envNoNet fsLocal ["cfg.yml"] []
    (by decide) (by decide) (by decide)

/-! ### Claim C3: HTTP 404 on the config fetch -/

/-- C3 (code bug): when no local config is given and the remote config
fetch raises HTTP 404, the process exits with code 1 and stderr names the
offending branch — but the temporary config file created by
`NamedTemporaryFile` just before the fetch is left on disk: the exception
is raised before `config_path`/`config_is_temp` are set, so the handler
does not unlink it, contradicting the claim that no leftover artifacts
created by this run remain. -/
theorem C3_config_404_leaves_temp_file :
    (mainRun argsC3 envC3 fsEmpty).exitCode = 1 ∧
    errBranchMsg "feature-x" ∈ (mainRun argsC3 envC3 fsEmpty).stderr ∧
    containsSeq "feature-x".data (errBranchMsg "feature-x").data = true ∧
    fsEmpty.readText envC3.tempName = none ∧
    (mainRun argsC3 envC3 fsEmpty).fs.readText envC3.tempName = some [] := by
  refine ⟨by decide, by decide, by decide, by decide, by decide⟩

/-! ### Claim C4: auxiliary-asset fetch failures -/

theorem pathExists_writeText (fs : FS) (p q : List String) (c : List Char)
    (h : (fs.writeText p c).pathExists q = true) :
    q = p ∨ fs.pathExists q = true := by
  by_cases hqp : q = p
  · exact Or.inl hqp
  · refine Or.inr ?_
    unfold FS.pathExists at h ⊢
    rw [Bool.or_eq_true] at h ⊢
    rcases h with h | h
    · refine Or.inl ?_
      unfold FS.fileAt at h ⊢
      have he : (fs.writeText p c).readText q = fs.readText q :=
        readText_writeText_ne fs c hqp
      unfold FS.readText at he
      rw [← he]
      exact h
    · exact Or.inr h

theorem download_preserves_other_absent (p : List String) (url desc : String)
    (resp : Option (List Char)) (fs : FS) (q : List String)
    (hq : fs.pathExists q = false) (hqp : q ≠ p)
    (hqanc : ∀ t, t ≠ [] → t <+: p.dropLast → q ≠ t) :
    (download_if_missing p url desc resp fs).2.1.pathExists q = false := by
  unfold download_if_missing
  by_cases hex : fs.pathExists p = true
  · rw [if_pos hex]
    exact hq
  · rw [if_neg hex]
    cases resp with
    | none =>
      show (fs.mkdirParents p.dropLast).pathExists q = false
      by_cases hcon : (fs.mkdirParents p.dropLast).pathExists q = true
      · exfalso
        rcases pathExists_mkdirParents hcon with h5 | ⟨t, ht1, ht2, ht3⟩
        · rw [hq] at h5
          exact Bool.noConfusion h5
        · exact hqanc t ht1 ht2 ht3
      · revert hcon
        cases (fs.mkdirParents p.dropLast).pathExists q <;> simp
    | some content =>
      show ((fs.mkdirParents p.dropLast).writeText p content).pathExists q = false
      by_cases hcon :
          ((fs.mkdirParents p.dropLast).writeText p content).pathExists q = true
      · exfalso
        rcases pathExists_writeText _ p q content hcon with h5 | h5
        · exact hqp h5
        · rcases pathExists_mkdirParents h5 with h6 | ⟨t, ht1, ht2, ht3⟩
          · rw [hq] at h6
            exact Bool.noConfusion h6
          · exact hqanc t ht1 ht2 ht3
      · revert hcon
        cases ((fs.mkdirParents p.dropLast).writeText p content).pathExists q <;> simp

/-- The template stage of the auxiliary downloads (whatever its outcome:
skipped, failed fetch, or successful write) cannot bring the license asset
path into existence. -/
theorem template_stage_keeps_license_absent (cfg : RunConfig)
    (resp : Option (List Char)) (fs2 : FS)
    (hlm : fs2.pathExists (licensePath cfg.license) = false) :
    (download_if_missing (templatePath cfg.templateName)
      (TEMPLATE_URL cfg.branch cfg.templateName) (descTemplate cfg.templateName)
      resp fs2).2.1.pathExists (licensePath cfg.license) = false := by
  refine download_preserves_other_absent _ _ _ resp fs2 _ hlm ?_ ?_
  · simp [licensePath, templatePath]
  · intro t ht1 ht2 hqt
    subst hqt
    obtain ⟨z, hz⟩ := ht2
    have hdl : (templatePath cfg.templateName).dropLast = [".reuse", "templates"] := rfl
    rw [hdl] at hz
    simp [licensePath] at hz

/-- C4: once both required artifacts are acquired, the run always continues
to the downstream tool and exits with the tool's exit code, whatever the
outcomes of the two auxiliary fetches; and every failure of a fetch of one
of the two auxiliary assets — each independently, with no assumption on the
other asset — emits its warning to stderr and records no cleanup entry for
that asset (it is skipped).  An auxiliary-asset fetch failure never aborts
the run. -/
theorem C4_aux_fetch_failures_never_abort (args : Args) (env : Env) (fs0 : FS)
    (cfg : RunConfig) (cp : List String) (fs1 : FS)
    (cl1 : List (Option CleanupInfo)) (fs2 : FS)
    (hcfg : resolve_config args.branch args.copyright args.license args.template = cfg)
    (hc : acquireConfig args env (!args.no_fix) fs0 = .ok (cp, fs1))
    (hh : acquireHook args env cfg fs1 = .ok (cl1, fs2)) :
    (mainRun args env fs0).invoked = true ∧
    (mainRun args env fs0).exitCode = env.toolExit ∧
    (env.templateFetch = none →
      fs2.pathExists (templatePath cfg.templateName) = false →
      (∃ ci2, (auxDownloads env cfg fs2).1 = [none, ci2]) ∧
        warnMsg (descTemplate cfg.templateName)
          (TEMPLATE_URL cfg.branch cfg.templateName) ∈ (mainRun args env fs0).stderr) ∧
    (env.licenseFetch = none →
      fs2.pathExists (licensePath cfg.license) = false →
      (∃ ci1, (auxDownloads env cfg fs2).1 = [ci1, none]) ∧
        warnMsg (descLicense cfg.license)
          (LICENSE_URL cfg.branch cfg.license) ∈ (mainRun args env fs0).stderr) := by
  rcases haux : auxDownloads env cfg fs2 with ⟨cis, fsx, ws⟩
  obtain ⟨fs5, hcl⟩ := cleanup_downloads_ok (cl1 ++ cis) (unlinkQuiet fsx cp)
  have hmain : mainRun args env fs0 =
      { exitCode := env.toolExit, invoked := true, fs := fs5, stderr := ws } := by
    unfold mainRun
    rw [hcfg, hc]
    dsimp only
    rw [hh]
    dsimp only
    unfold finishRun
    rw [haux]
    dsimp only
    rw [hcl]
  refine ⟨by rw [hmain], by rw [hmain], ?_, ?_⟩
  · intro ht htm
    have hneg : ¬ fs2.pathExists (templatePath cfg.templateName) = true := by
      rw [htm]
      exact Bool.noConfusion
    have hd1 : download_if_missing (templatePath cfg.templateName)
        (TEMPLATE_URL cfg.branch cfg.templateName) (descTemplate cfg.templateName)
        env.templateFetch fs2 =
        (none, fs2.mkdirParents (templatePath cfg.templateName).dropLast,
          [warnMsg (descTemplate cfg.templateName)
            (TEMPLATE_URL cfg.branch cfg.templateName)]) := by
      unfold download_if_missing
      rw [if_neg hneg, ht]
    rcases hd2 : download_if_missing (licensePath cfg.license)
        (LICENSE_URL cfg.branch cfg.license) (descLicense cfg.license)
        env.licenseFetch
        (fs2.mkdirParents (templatePath cfg.templateName).dropLast) with ⟨ci2, fsy, w2⟩
    have hcomp := haux
    unfold auxDownloads at hcomp
    rw [hd1] at hcomp
    dsimp only at hcomp
    rw [hd2] at hcomp
    dsimp only at hcomp
    simp only [Prod.mk.injEq] at hcomp
    constructor
    · exact ⟨ci2, hcomp.1.symm⟩
    · rw [hmain]
      dsimp only
      rw [← hcomp.2.2]
      simp
  · intro hl hlm
    rcases hd1 : download_if_missing (templatePath cfg.templateName)
        (TEMPLATE_URL cfg.branch cfg.templateName) (descTemplate cfg.templateName)
        env.templateFetch fs2 with ⟨ci1, fsx1, w1⟩
    have hlm2 : fsx1.pathExists (licensePath cfg.license) = false := by
      have h := template_stage_keeps_license_absent cfg env.templateFetch fs2 hlm
      rw [hd1] at h
      exact h
    have hneg : ¬ fsx1.pathExists (licensePath cfg.license) = true := by
      rw [hlm2]
      exact Bool.noConfusion
    have hd2 : download_if_missing (licensePath cfg.license)
        (LICENSE_URL cfg.branch cfg.license) (descLicense cfg.license)
        env.licenseFetch fsx1 =
        (none, fsx1.mkdirParents (licensePath cfg.license).dropLast,
          [warnMsg (descLicense cfg.license)
            (LICENSE_URL cfg.branch cfg.license)]) := by
      unfold download_if_missing
      rw [if_neg hneg, hl]
    have hcomp := haux
    unfold auxDownloads at hcomp
    rw [hd1] at hcomp
    dsimp only at hcomp
    rw [hd2] at hcomp
    dsimp only at hcomp
    simp only [Prod.mk.injEq] at hcomp
    constructor
    · exact ⟨ci1, hcomp.1.symm⟩
    · rw [hmain]
      dsimp only
      rw [← hcomp.2.2]
      simp

/-- Witness for C4: a concrete run with local config and hook script in
which the template fetch fails; the warning is emitted and the run still
exits with the tool's exit code 5. -/
theorem C4_aux_fetch_failures_never_abort_witness :
    (mainRun argsLocal envNoNet fsLocal).invoked = true ∧
    (mainRun argsLocal envNoNet fsLocal).exitCode = envNoNet.toolExit ∧
    warnMsg (descTemplate "opensovd") (TEMPLATE_URL "main" "opensovd") ∈
      (mainRun argsLocal envNoNet fsLocal).stderr := by
  obtain ⟨h1, h2, h3, h4⟩ := C4_aux_fetch_failures_never_abort argsLocal envNoNet
    fsLocal (resolve_config argsLocal.branch argsLocal.copyright argsLocal.license
      argsLocal.template) ["tmpcfg.yml"] fsLocalC1 [some ⟨hookPath, []⟩] fsLocalC2
    rfl rfl rfl
  obtain ⟨-, hw⟩ := h3 rfl (by decide)
  exact ⟨h1, h2, hw⟩


/-! ### The fueled loop agrees with the structural ancestor recording -/

theorem missingAncestorsFrom_concat (fs : FS) :
    ∀ (l done : List String) (a : String),
      missingAncestorsFrom fs done (l ++ [a]) =
        (if fs.pathExists (done ++ l ++ [a]) then [] else [done ++ l ++ [a]]) ++
          missingAncestorsFrom fs done l
  | [], done, a => by
    simp only [List.nil_append, missingAncestorsFrom, List.append_nil]
  | b :: rest, done, a => by
    rw [List.cons_append]
    simp only [missingAncestorsFrom]
    rw [missingAncestorsFrom_concat fs rest (done ++ [b]) a]
    rw [show done ++ [b] ++ rest = done ++ b :: rest from (List.append_cons done b rest).symm]
    simp [List.append_assoc]

theorem missingAncestors_concat (fs : FS) (l : List String) (a : String) :
    missingAncestors fs (l ++ [a]) =
      (if fs.pathExists (l ++ [a]) then [] else [l ++ [a]]) ++ missingAncestors fs l := by
  unfold missingAncestors
  have h := missingAncestorsFrom_concat fs l [] a
  simpa using h

/-- On a relative path with sufficient fuel, the fueled while-loop of
`download_if_missing` computes exactly the recorded missing-ancestor list
used by the embedding (appended to its accumulator, deepest first). -/
theorem collectDirsLoop_eq_missingAncestors (fs : FS) :
    ∀ (fuel : Nat) (parts : List String) (acc : List PyPath), parts.length < fuel →
      collectDirsLoop (fun q => fs.pathExists q.parts) fuel ⟨false, parts⟩ acc =
        some (acc ++ (missingAncestors fs parts).map
          (fun d => (⟨false, d⟩ : PyPath))) := by
  intro fuel
  induction fuel with
  | zero =>
    intro parts acc h
    omega
  | succ n ih =>
    intro parts acc h
    rcases List.eq_nil_or_concat parts with rfl | ⟨l, a, rfl⟩
    · have hd : (⟨false, []⟩ : PyPath) = dotPath := rfl
      rw [collectDirsLoop, if_pos hd]
      simp [missingAncestors, missingAncestorsFrom]
    · rw [List.concat_eq_append] at *
      have hne : (⟨false, l ++ [a]⟩ : PyPath) ≠ dotPath := by
        simp [dotPath]
      rw [collectDirsLoop, if_neg hne]
      have hpar : (⟨false, l ++ [a]⟩ : PyPath).parent = ⟨false, l⟩ := by
        simp [PyPath.parent, List.dropLast_concat]
      rw [hpar]
      have hlen : l.length < n := by
        rw [List.length_append] at h
        simp only [List.length_cons, List.length_nil] at h
        omega
      rw [ih l _ hlen]
      rw [missingAncestors_concat fs l a]
      by_cases hex : fs.pathExists (l ++ [a]) = true
      · rw [if_pos hex, if_pos hex]
        simp
      · rw [if_neg hex, if_neg hex]
        simp [List.append_assoc]
